import Mathlib

/-!
Verification development for the mt-toolbox Telegram media downloaders
(`bot_downloader.py`, `channel_comments_downloader.py`,
`topic_downloader.py`, `telegram_utils.py`).

Strings are embedded as `List Char`; Python string operations used by the
source (`split`, `startswith`, `in`, f-string padding) are given explicit
recursive definitions below.  Filesystem paths are lists of path segments.
Network and filesystem effects are modelled by oracle environments: a fetch
function giving the message list returned by each `get_messages` call, and
per-message success oracles for the media transfer and the rename step.
-/

/-! ### Generic list/string helpers (Python string operations) -/

/-- `startsWithL s p` models Python `s.startswith(p)` (`p` a leading run of `s`). -/
def startsWithL [DecidableEq α] : List α → List α → Bool
  | _, [] => true
  | [], _ :: _ => false
  | c :: cs, p :: ps => if c = p then startsWithL cs ps else false

/-- `containsSub hay pat` models Python `pat in hay` (substring containment). -/
def containsSub [DecidableEq α] (hay pat : List α) : Bool :=
  match hay with
  | [] => startsWithL ([] : List α) pat
  | _ :: t => startsWithL hay pat || containsSub t pat

/-- Models Python `s.split(sep)` for a one-character separator: splits at every
occurrence, keeping empty pieces, and yields `[s]` when the separator is absent. -/
def splitOnChar (sep : Char) : List Char → List (List Char)
  | [] => [[]]
  | c :: cs =>
    if c = sep then [] :: splitOnChar sep cs
    else
      match splitOnChar sep cs with
      | [] => [[c]]
      | a :: rest => (c :: a) :: rest

/-- Models the Python idiom `s.split("/")[-1]` (the last piece of the split). -/
def lastSegOf (s : List Char) : List Char :=
  (splitOnChar '/' s).getLastD []

/-- Decimal rendering of a natural number, as used by Python `str(n)`. -/
def natStr (n : Nat) : List Char := Nat.toDigits 10 n

/-- Models the Python format `f"\x7bn:03d\x7d"`: decimal, zero-padded to width 3. -/
def pad3 (n : Nat) : List Char :=
  List.replicate (3 - (natStr n).length) '0' ++ natStr n

/-- Two-digit zero-padded rendering for the fractional part of `%.2f`. -/
def pad2 (n : Nat) : List Char :=
  if n < 10 then '0' :: natStr n else natStr n

/-- Insert `a` into `l` before the first element `b` with `le a b`.  Together
with `sortLe` this is a stable insertion sort; since any two stable sorts by
the same key produce the same list, it computes exactly what Python's stable
`sorted`/`list.sort` returns (including `reverse=True`, modelled by the
flipped comparator). -/
def insertLe (le : α → α → Bool) (a : α) : List α → List α
  | [] => [a]
  | b :: l => if le a b then a :: b :: l else b :: insertLe le a l

/-- Stable insertion sort by the Boolean comparator `le`. -/
def sortLe (le : α → α → Bool) : List α → List α
  | [] => []
  | a :: l => insertLe le a (sortLe le l)

theorem insertLe_perm (le : α → α → Bool) (a : α) :
    ∀ l : List α, List.Perm (insertLe le a l) (a :: l) := by
  intro l
  induction l with
  | nil => exact List.Perm.refl _
  | cons b t ih =>
    by_cases h : le a b
    · simp [insertLe, h]
    · simp only [insertLe, h, if_false, Bool.false_eq_true]
      exact (ih.cons b).trans (List.Perm.swap a b t)

theorem sortLe_perm (le : α → α → Bool) : ∀ l : List α, List.Perm (sortLe le l) l := by
  intro l
  induction l with
  | nil => exact List.Perm.refl _
  | cons a t ih => exact (insertLe_perm le a (sortLe le t)).trans (ih.cons a)

theorem insertLe_pairwise {le : α → α → Bool}
    (htrans : ∀ x y z, le x y = true → le y z = true → le x z = true)
    (htot : ∀ x y, le x y = true ∨ le y x = true) (a : α) :
    ∀ {l : List α}, l.Pairwise (fun x y => le x y = true) →
      (insertLe le a l).Pairwise (fun x y => le x y = true) := by
  intro l
  induction l with
  | nil => intro _; simp [insertLe]
  | cons b t ih =>
    intro h
    rcases List.pairwise_cons.mp h with ⟨hb, ht⟩
    by_cases hab : le a b = true
    · simp only [insertLe, hab, if_true]
      refine List.pairwise_cons.mpr ⟨?_, h⟩
      intro c hc
      rcases List.mem_cons.mp hc with rfl | hc
      · exact hab
      · exact htrans a b c hab (hb c hc)
    · simp only [insertLe, hab, if_false, Bool.false_eq_true]
      refine List.pairwise_cons.mpr ⟨?_, ih ht⟩
      intro c hc
      rcases List.mem_cons.mp ((insertLe_perm le a t).mem_iff.mp hc) with hca | hc
      · rw [hca]
        rcases htot a b with h1 | h1
        · exact absurd h1 hab
        · exact h1
      · exact hb c hc

theorem sortLe_pairwise {le : α → α → Bool}
    (htrans : ∀ x y z, le x y = true → le y z = true → le x z = true)
    (htot : ∀ x y, le x y = true ∨ le y x = true) :
    ∀ l : List α, (sortLe le l).Pairwise (fun x y => le x y = true) := by
  intro l
  induction l with
  | nil => simp [sortLe]
  | cons a t ih => exact insertLe_pairwise htrans htot a ih

/-! ### Data model: remote messages and buttons -/

/-- An inline keyboard button: display text and optional callback payload
(`data = none` models a URL button without callback data). -/
structure Button where
  text : List Char
  data : Option (List Char)
deriving DecidableEq

/-- A remote Telegram message as the scripts observe it: numeric id, outbound
flag, the three media payload observations (`photo`, `video`, and the generic
`document` carrying its MIME type), and the inline button rows (empty list when
the message has no buttons). -/
structure Msg where
  id : Nat
  out : Bool
  photo : Bool
  video : Bool
  document : Option (List Char)
  buttons : List (List Button)
deriving DecidableEq

/-- Python truthiness test `msg.photo or msg.video or msg.document` used by all
three flows to decide whether a message carries media. -/
def hasMedia (m : Msg) : Bool :=
  m.photo || m.video || m.document.isSome

/-- The media classification produced by the shared classifier branch. -/
inductive MediaKind
  | image
  | video
  | file
deriving DecidableEq

/-- The media classifier shared verbatim by `download_media_messages`
(bot_downloader.py:217-243) and `download_media_from_message`
(channel_comments_downloader.py:61-88, topic_downloader.py:60-87):
photo → Image/`jpg`; video → Video/`mp4`; otherwise inspect the document's
MIME type; a message without media yields `none` (the `continue`/`return
False` branch). -/
def classifyMedia (m : Msg) : Option (MediaKind × List Char) :=
  if m.photo then some (MediaKind.image, "jpg".toList)
  else if m.video then some (MediaKind.video, "mp4".toList)
  else
    match m.document with
    | some mime =>
      if startsWithL mime "image/".toList then some (MediaKind.image, lastSegOf mime)
      else if startsWithL mime "video/".toList then some (MediaKind.video, lastSegOf mime)
      else
        some (MediaKind.file, if '/' ∈ mime then lastSegOf mime else "bin".toList)
    | none => none

/-- A filesystem path, as a list of path segments. -/
abbrev FsPath := List (List Char)

/-- The image subfolder name used by all three scripts. -/
def imagesSub : List Char := "图片".toList

/-- The video subfolder name used by all three scripts. -/
def videosSub : List Char := "视频".toList

/-- Destination directory for a classified item: images and videos go to their
subfolder, plain files to the base directory. -/
def saveDirParts (base : FsPath) : MediaKind → FsPath
  | MediaKind.image => base ++ [imagesSub]
  | MediaKind.video => base ++ [videosSub]
  | MediaKind.file => base

/-! ### telegram_utils.format_bytes -/

/-- Models the Python format `f"\x7bx:.2f\x7d"` for the non-negative exact
fraction `num/den` (`den > 0`): round half-up at the hundredths (identical to
CPython's half-even rounding on every input whose hundredths are exact, as in
all values proved about below), then render with exactly two decimals. -/
def fmt2Frac (num den : Nat) : List Char :=
  let h : Nat := (num * 200 + den) / (2 * den)
  natStr (h / 100) ++ '.' :: pad2 (h % 100)

/-- The unit loop of `format_bytes` (telegram_utils.py:71-77): try each unit in
order, dividing the running value by 1024, and fall through to `TB`.  The
running float after `k` divisions of the integer byte count `n` by `1024.0` is
exactly `n / 1024 ^ k` in double precision for `n < 2 ^ 53`, so the value is
carried as the exact fraction `num/den` with the denominator multiplied by
1024 at each step. -/
def format_bytes_go : List (List Char) → Nat → Nat → List Char
  | [], num, den => fmt2Frac num den ++ "TB".toList
  | u :: us, num, den =>
    if num < 1024 * den then fmt2Frac num den ++ u
    else format_bytes_go us num (1024 * den)

/-- `format_bytes` (telegram_utils.py:71-77, duplicated at
bot_downloader.py:114-120), on an integer byte count. -/
def format_bytes (n : Nat) : List Char :=
  format_bytes_go ["B".toList, "KB".toList, "MB".toList, "GB".toList] n 1

example : format_bytes 1023 = "1023.00B".toList := by decide
example : format_bytes 1024 = "1.00KB".toList := by decide
example : format_bytes 1048576 = "1.00MB".toList := by decide
example : classifyMedia ⟨0, false, false, false, some "video/webm".toList, []⟩ =
    some (MediaKind.video, "webm".toList) := by decide

/-! ### Link parsing (channel_comments_downloader.parse_channel_post_link) -/

/-- No two adjacent underscores (part of Python's integer-literal grammar). -/
def noDoubleUnd : List Char → Bool
  | [] => true
  | [_] => true
  | a :: b :: rest => !(a = '_' && b = '_') && noDoubleUnd (b :: rest)

/-- The body of a Python decimal integer literal after the optional sign:
`digit (["_"] digit)*`, i.e. nonempty, first and last characters are digits,
every character is a digit or an underscore, and no two underscores are
adjacent. -/
def pyDigitBody (l : List Char) : Bool :=
  match l with
  | [] => false
  | c :: _ =>
    c.isDigit && (match l.getLast? with | some d => d.isDigit | none => false)
      && l.all (fun x => x.isDigit || x = '_') && noDoubleUnd l

/-- Numeric value of a digit/underscore body (underscores skipped). -/
def digitsVal (l : List Char) : Nat :=
  (l.filter (fun c => c.isDigit)).foldl (fun a c => a * 10 + (c.toNat - 48)) 0

/-- Models CPython's built-in `int(str)` on ASCII strings (a library routine,
not part of src): strip surrounding whitespace, accept one optional sign, then
a digit run with optional single underscores between digits; `none` models the
`ValueError`. -/
def pyInt? (s : List Char) : Option Int :=
  let t := ((s.dropWhile Char.isWhitespace).reverse.dropWhile Char.isWhitespace).reverse
  match t with
  | '+' :: r => if pyDigitBody r then some (Int.ofNat (digitsVal r)) else none
  | '-' :: r => if pyDigitBody r then some (-(Int.ofNat (digitsVal r))) else none
  | r => if pyDigitBody r then some (Int.ofNat (digitsVal r)) else none

instance [DecidableEq ε] [DecidableEq α] : DecidableEq (Except ε α) := fun x y =>
  match x, y with
  | Except.ok a, Except.ok b =>
    if h : a = b then isTrue (by rw [h])
    else isFalse (by intro he; cases he; exact h rfl)
  | Except.ok _, Except.error _ => isFalse (by intro h; cases h)
  | Except.error _, Except.ok _ => isFalse (by intro h; cases h)
  | Except.error a, Except.error b =>
    if h : a = b then isTrue (by rw [h])
    else isFalse (by intro he; cases he; exact h rfl)

/-- The fields of `urllib.parse.urlparse` that the link parsers read. -/
structure UrlParts where
  netloc : List Char
  path : List Char
deriving DecidableEq

/-- The failure modes of `parse_channel_post_link`, one per distinct
`ValueError` message (channel_comments_downloader.py:36,40,50). -/
inductive LinkError
  | invalidLink
  | incompletePath
  | invalidMessageId
deriving DecidableEq

/-- The four accepted Telegram hosts (channel_comments_downloader.py:35). -/
def telegramHosts : List (List Char) :=
  ["t.me".toList, "telegram.me".toList, "www.t.me".toList, "www.telegram.me".toList]

/-- `[p for p in u.path.split("/") if p]`: path split into non-empty segments. -/
def pathParts (p : List Char) : List (List Char) :=
  (splitOnChar '/' p).filter (fun seg => !seg.isEmpty)

/-- Strip one leading `@` from a username segment
(channel_comments_downloader.py:44-45). -/
def stripAt : List Char → List Char
  | '@' :: r => r
  | r => r

/-- `parse_channel_post_link` (channel_comments_downloader.py:29-52): validate
the host, require at least two non-empty path segments, strip a leading `@`
from the username, and convert the second segment with Python `int`.
`parse_topic_link` (topic_downloader.py:28-51) computes the identical result
on this domain. -/
def parse_channel_post_link (u : UrlParts) : Except LinkError (List Char × Int) :=
  if u.netloc ∈ telegramHosts then
    match pathParts u.path with
    | p0 :: p1 :: _ =>
      match pyInt? p1 with
      | some n => Except.ok (stripAt p0, n)
      | none => Except.error LinkError.invalidMessageId
    | _ => Except.error LinkError.incompletePath
  else Except.error LinkError.invalidLink

example : pyInt? "42".toList = some 42 := by decide
example : pyInt? "-5".toList = some (-5) := by decide
example : pyInt? "abc".toList = none := by decide
example : pyInt? "1_0".toList = some 10 := by decide
example : pyInt? "1__0".toList = none := by decide
example : pyInt? "_1".toList = none := by decide
example : pyInt? " 7 ".toList = some 7 := by decide
example : pyInt? "".toList = none := by decide
example : parse_channel_post_link ⟨"t.me".toList, "/chan/-5".toList⟩ =
    Except.ok ("chan".toList, -5) := by decide
example : parse_channel_post_link ⟨"t.me".toList, "/@chan/42".toList⟩ =
    Except.ok ("chan".toList, 42) := by decide
example : parse_channel_post_link ⟨"example.com".toList, "/chan/42".toList⟩ =
    Except.error LinkError.invalidLink := by decide
example : parse_channel_post_link ⟨"t.me".toList, "/chan/x9".toList⟩ =
    Except.error LinkError.invalidMessageId := by decide
example : parse_channel_post_link ⟨"t.me".toList, "//chan//".toList⟩ =
    Except.error LinkError.incompletePath := by decide

/-! ### Download execution (shared by all retrieval strategies) -/

/-- Oracle environment for the effects of one run: whether the media transfer
(`client.download_media`) and the rename (`Path.rename`) of the item for a
given message id raise, and the wall-clock millisecond timestamp used in the
final file name. -/
structure DownloadEnv where
  transferOk : Nat → Bool
  renameOk : Nat → Bool
  now : Nat

/-- `f"\x7btimestamp\x7d_\x7btemp_filename\x7d"` with `temp_filename = f"\x7bidx:03d\x7d.\x7bext\x7d"`. -/
def tempName (idx : Nat) (ext : List Char) : List Char :=
  pad3 idx ++ '.' :: ext

/-- The post-rename file name: millisecond timestamp, underscore, temp name. -/
def finalName (now idx : Nat) (ext : List Char) : List Char :=
  natStr now ++ '_' :: tempName idx ext

/-- Observable outcome of one item's download attempt: whether the item
counted as downloaded, the files written (temp file, then renamed file), and
the message id printed by the exception handler on failure. -/
structure ItemRes where
  ok : Bool
  writes : List FsPath
  failed : Option Nat
deriving DecidableEq

/-- One item attempt inside the `try` block shared by both download loops:
write the temp file at `dir`, rename on success; any exception is caught and
logged with the message id, and the loop continues. -/
def runItem (env : DownloadEnv) (dir : FsPath) (idx : Nat) (m : Msg) (ext : List Char) : ItemRes :=
  if env.transferOk m.id then
    if env.renameOk m.id then
      { ok := true
        writes := [dir ++ [tempName idx ext], dir ++ [finalName env.now idx ext]]
        failed := none }
    else { ok := false, writes := [dir ++ [tempName idx ext]], failed := some m.id }
  else { ok := false, writes := [], failed := some m.id }

/-- Aggregate outcome of the bot flow's per-page download loop
(bot_downloader.py:213-278). -/
structure ItemsOutcome where
  downloaded : Nat
  attempted : List Nat
  failedLog : List Nat
  writes : List FsPath
deriving DecidableEq

/-- The `for idx, msg in enumerate(media_messages, start=start_index+1)` loop
of `download_media_messages` (bot_downloader.py:214-278): classify, pick the
destination directory, attempt the download, and on failure log the message id
and continue with the next item. -/
def processItems (env : DownloadEnv) (base : FsPath) : List (Nat × Msg) → ItemsOutcome
  | [] => ⟨0, [], [], []⟩
  | p :: rest =>
    let tail := processItems env base rest
    match classifyMedia p.2 with
    | none => tail
    | some (kind, ext) =>
      let r := runItem env (saveDirParts base kind) p.1 p.2 ext
      ⟨(if r.ok then 1 else 0) + tail.downloaded,
       p.2.id :: tail.attempted,
       (match r.failed with | some i => [i] | none => []) ++ tail.failedLog,
       r.writes ++ tail.writes⟩

/-- The message selection of `download_media_messages`
(bot_downloader.py:189-203): keep non-outbound messages carrying media, then
sort ascending by message id (Python `sort` is stable; so is `sortLe`). -/
def botSelect (messages : List Msg) : List Msg :=
  sortLe (fun a b => decide (a.id ≤ b.id))
    (messages.filter (fun m => !m.out && hasMedia m))

/-- Outcome of one `download_media_messages` call: the per-item outcomes plus
the directories passed to `mkdir` (in call order). -/
structure BatchOutcome where
  items : ItemsOutcome
  dirsCreated : List FsPath
deriving DecidableEq

/-- `download_media_messages` (bot_downloader.py:184-280): select and sort the
media messages; if none, report and return 0 without touching the filesystem;
otherwise create the image and video subdirectories up front (`mkdir` with
`parents=True, exist_ok=True`) and run the download loop. -/
def download_media_messages (env : DownloadEnv) (messages : List Msg) (base : FsPath)
    (startIndex : Nat) : BatchOutcome :=
  let sel := botSelect messages
  if sel.isEmpty then ⟨⟨0, [], [], []⟩, []⟩
  else
    ⟨processItems env base (sel.enumFrom (startIndex + 1)),
     [base ++ [imagesSub], base ++ [videosSub]]⟩

/-- Outcome of one `download_media_from_message` call
(channel_comments_downloader.py:55-125, identical at topic_downloader.py:54-124):
success flag, the directory passed to `mkdir` just before the write, the files
written, and the message id logged by the exception handler. -/
structure MsgItemOutcome where
  success : Bool
  dirsCreated : List FsPath
  writes : List FsPath
  failedLog : List Nat
deriving DecidableEq

/-- `download_media_from_message`: classify the message (returning `False` with
no filesystem effect when it has no media), create the destination directory
(`mkdir` with `parents=True, exist_ok=True` — idempotent), then attempt the
transfer and rename inside `try`, catching any failure, logging the message id
and returning `False`. -/
def download_media_from_message (env : DownloadEnv) (m : Msg) (base : FsPath)
    (index : Nat) : MsgItemOutcome :=
  match classifyMedia m with
  | none => ⟨false, [], [], []⟩
  | some (kind, ext) =>
    let dir := saveDirParts base kind
    let r := runItem env dir index m ext
    ⟨r.ok, [dir], r.writes, match r.failed with | some i => [i] | none => []⟩

/-! ### find_next_page_button (bot_downloader.py:283-335) -/

/-- The callback token of the non-interactive page-indicator button. -/
def pageInfoTok : List Char := "page_info".toList

/-- Python truthiness of `btn.data`: a button qualifies only when it has a
non-empty callback payload (bot_downloader.py:307). -/
def hasCallback (b : Button) : Bool :=
  match b.data with
  | none => false
  | some d => !d.isEmpty

/-- The decoded callback payload (only read after `hasCallback`). -/
def dataOf (b : Button) : List Char := b.data.getD []

/-- The two forward-arrow glyphs accepted by the scan (bot_downloader.py:319). -/
def isArrowText (t : List Char) : Bool :=
  containsSub t "▶️".toList || containsSub t "➡️".toList

/-- The message filter of the button scan: non-outbound and truthy `buttons`
(bot_downloader.py:291). -/
def qualMsg (m : Msg) : Bool := !m.out && !m.buttons.isEmpty

/-- A button the scan may select: has callback data and is not the
page-indicator. -/
def qualB (b : Button) : Bool := hasCallback b && decide (dataOf b ≠ pageInfoTok)

/-- One step of the button scan (bot_downloader.py:304-325), carried over the
pair (last arrow button seen, last next-page-number button seen); the mutable
variables are overwritten, so a later match wins. -/
def scanStep (nextNum : List Char) (st : Option Button × Option Button) (b : Button) :
    Option Button × Option Button :=
  if !hasCallback b then st
  else if dataOf b = pageInfoTok then st
  else if isArrowText b.text then (some b, st.2)
  else if containsSub b.text nextNum then (st.1, some b)
  else st

/-- `find_next_page_button` (bot_downloader.py:283-335): sort the non-outbound
messages that have buttons by id descending (stable), scan all buttons of the
first (most recent) one, and prefer the arrow button over the literal
next-page-number button. -/
def find_next_page_button (messages : List Msg) (currentPage : Nat) : Option (Msg × Button) :=
  let sortedMsgs := sortLe (fun a b => decide (b.id ≤ a.id)) (messages.filter qualMsg)
  match sortedMsgs with
  | [] => none
  | latest :: _ =>
    let nextNum := natStr (currentPage + 1)
    let scan := latest.buttons.flatten.foldl (scanStep nextNum) (none, none)
    match scan.1 with
    | some b => some (latest, b)
    | none =>
      match scan.2 with
      | some b => some (latest, b)
      | none => none

/-! ### interact_with_bot (bot_downloader.py:338-431) -/

/-- Environment of one bot-flow run: the download oracles, the messages already
in the conversation before `/start` is sent (most recent first, as
`get_messages` returns them), and the message list returned by the i-th
in-loop `get_messages` call.  Button clicks only influence what later fetches
return, which the arbitrary `fetch` function already captures. -/
structure BotEnv where
  dl : DownloadEnv
  preMessages : List Msg
  fetch : Nat → List Msg

/-- `last_msg_id_before` (bot_downloader.py:348-349): id of the most recent
existing message, 0 if none. -/
def watermarkOf (env : BotEnv) : Nat :=
  match env.preMessages with
  | [] => 0
  | m :: _ => m.id

/-- Mutable state of the pagination loop (bot_downloader.py:362-364), plus the
observation lists the theorems are about: all message ids for which a download
was attempted, in order, and the number of loop iterations entered. -/
structure BotState where
  total : Nat
  dedup : List Nat
  attempts : List Nat
  pages : Nat
deriving DecidableEq

/-- How the pagination loop ended. -/
inductive BotExit
  | pageLimit
  | noNewMessages
  | noButton
deriving DecidableEq

/-- Result of a bot-flow run. -/
structure BotRun where
  final : BotState
  exit : BotExit
deriving DecidableEq

/-- The pagination loop of `interact_with_bot` (bot_downloader.py:370-416),
with the remaining allowed iterations as fuel: fetch, keep messages newer than
the watermark and not in the dedup set, stop if none; mark all new media
messages in the dedup set *before* downloading; download; look for the
next-page button and either stop or continue with the next page. -/
def botIter (env : BotEnv) (base : FsPath) : Nat → Nat → Nat → BotState → BotRun
  | 0, _, _, st => ⟨st, BotExit.pageLimit⟩
  | fuel + 1, iter, curPage, st =>
    let newMessages := (env.fetch iter).filter
      (fun m => decide (watermarkOf env < m.id) && decide (m.id ∉ st.dedup))
    if newMessages.isEmpty then ⟨st, BotExit.noNewMessages⟩
    else
      let batch := download_media_messages env.dl newMessages base st.total
      let st' : BotState :=
        { total := st.total + batch.items.downloaded
          dedup := st.dedup ++ (newMessages.filter hasMedia).map Msg.id
          attempts := st.attempts ++ batch.items.attempted
          pages := st.pages + 1 }
      match find_next_page_button newMessages curPage with
      | none => ⟨st', BotExit.noButton⟩
      | some _ => botIter env base fuel (iter + 1) (curPage + 1) st'

/-- `interact_with_bot` (bot_downloader.py:338-431) for a page limit
`maxPages > 0`: the loop `while current_page <= max_pages` starting at page 1
runs at most `maxPages` iterations, so `maxPages` is the fuel.  (`max_pages =
0`, the unlimited mode, has no terminating embedding; every bounded run is
covered by quantifying over `maxPages`.) -/
def interact_with_bot (env : BotEnv) (base : FsPath) (maxPages : Nat) : BotRun :=
  botIter env base maxPages 0 1 ⟨0, [], [], 0⟩

/-! ### download_comments_media (channel_comments_downloader.py:128-246) -/

/-- The media comments in download order: filter to comments carrying media,
then sort ascending by id (channel_comments_downloader.py:198-210).  The topic
flow builds the same list (topic_downloader.py:187-199). -/
def sortedMediaComments (comments : List Msg) : List Msg :=
  sortLe (fun a b => decide (a.id ≤ b.id)) (comments.filter hasMedia)

/-- The indexed download plan of the comment flow
(channel_comments_downloader.py:209-226): drop `start_from - 1` leading items
when `start_from > 1` (returning early with nothing when `start_from` exceeds
the media count), then enumerate with 1-based indices starting at
`start_from`. -/
def commentPlan (comments : List Msg) (startFrom : Nat) : List (Nat × Msg) :=
  let sorted := sortedMediaComments comments
  if 1 < startFrom then
    if sorted.length < startFrom then []
    else (sorted.drop (startFrom - 1)).enumFrom startFrom
  else sorted.enumFrom startFrom

/-- Accumulated outcome of the comment download loop. -/
structure CommentLoopOut where
  downloaded : Nat
  failedLog : List Nat
  dirsCreated : List FsPath
  writes : List FsPath
deriving DecidableEq

/-- The `for idx, comment in enumerate(media_comments, start=start_from)` loop
(channel_comments_downloader.py:225-228). -/
def runCommentItems (env : DownloadEnv) (base : FsPath) : List (Nat × Msg) → CommentLoopOut
  | [] => ⟨0, [], [], []⟩
  | (i, m) :: rest =>
    let r := download_media_from_message env m base i
    let t := runCommentItems env base rest
    ⟨(if r.success then 1 else 0) + t.downloaded,
     r.failedLog ++ t.failedLog,
     r.dirsCreated ++ t.dirsCreated,
     r.writes ++ t.writes⟩

/-- Result of one `download_comments_media` run, with the download plan
retained as an observation. -/
structure CommentRun where
  plan : List (Nat × Msg)
  loop : CommentLoopOut
deriving DecidableEq

/-- `download_comments_media` (channel_comments_downloader.py:128-246),
starting from the fetched comment list: build the plan, run the loop. -/
def download_comments_media (env : DownloadEnv) (comments : List Msg) (base : FsPath)
    (startFrom : Nat) : CommentRun :=
  let plan := commentPlan comments startFrom
  ⟨plan, runCommentItems env base plan⟩

/-! ### String helper lemmas -/

theorem startsWithL_nil [DecidableEq α] (s : List α) : startsWithL s [] = true := by
  cases s <;> rfl

theorem startsWithL_append [DecidableEq α] (p r : List α) :
    startsWithL (p ++ r) p = true := by
  induction p with
  | nil => exact startsWithL_nil r
  | cons c cs ih => simp [startsWithL, ih]

theorem startsWithL_iff_exists [DecidableEq α] {s p : List α} :
    startsWithL s p = true ↔ ∃ t, s = p ++ t := by
  induction p generalizing s with
  | nil => simp [startsWithL_nil]
  | cons c cs ih =>
    cases s with
    | nil => simp [startsWithL]
    | cons a as =>
      by_cases h : a = c
      · subst h
        simp [startsWithL, ih]
      · simp [startsWithL, h, Ne.symm h]

theorem splitOnChar_not_mem {sep : Char} {l : List Char} (h : sep ∉ l) :
    splitOnChar sep l = [l] := by
  induction l with
  | nil => rfl
  | cons c cs ih =>
    have hc : ¬ c = sep := fun e => h (by simp [e])
    have hcs : sep ∉ cs := fun e => h (List.mem_cons_of_mem _ e)
    simp [splitOnChar, hc, ih hcs]

theorem splitOnChar_append {sep : Char} {a : List Char} (b : List Char) (h : sep ∉ a) :
    splitOnChar sep (a ++ sep :: b) = a :: splitOnChar sep b := by
  induction a with
  | nil => simp [splitOnChar]
  | cons c cs ih =>
    have hc : ¬ c = sep := fun e => h (by simp [e])
    have hcs : sep ∉ cs := fun e => h (List.mem_cons_of_mem _ e)
    simp [splitOnChar, hc, ih hcs]

theorem lastSegOf_sep {a s : List Char} (ha : '/' ∉ a) (hs : '/' ∉ s) :
    lastSegOf (a ++ '/' :: s) = s := by
  unfold lastSegOf
  rw [splitOnChar_append s ha, splitOnChar_not_mem hs]
  simp

theorem firstSep_unique {sep : Char} {a s : List Char} :
    ∀ {b t : List Char}, sep ∉ a → sep ∉ b →
      a ++ sep :: s = b ++ sep :: t → a = b ∧ s = t := by
  induction a with
  | nil =>
    intro b t _ hb h
    cases b with
    | nil => simpa using h
    | cons y ys =>
      simp only [List.nil_append, List.cons_append, List.cons.injEq] at h
      exact absurd (by simp [h.1]) hb
  | cons x xs ih =>
    intro b t ha hb h
    cases b with
    | nil =>
      simp only [List.cons_append, List.nil_append, List.cons.injEq] at h
      exact absurd (by simp [h.1]) ha
    | cons y ys =>
      simp only [List.cons_append, List.cons.injEq] at h
      have hxs : sep ∉ xs := fun e => ha (List.mem_cons_of_mem _ e)
      have hys : sep ∉ ys := fun e => hb (List.mem_cons_of_mem _ e)
      obtain ⟨h1, h2⟩ := ih hxs hys h.2
      exact ⟨by rw [h.1, h1], h2⟩

theorem not_startsWithL_seg {a s p : List Char} (ha : '/' ∉ a) (hp : '/' ∉ p)
    (hne : a ≠ p) : startsWithL (a ++ '/' :: s) (p ++ ['/']) = false := by
  by_contra h
  rw [Bool.not_eq_false, startsWithL_iff_exists] at h
  obtain ⟨t, ht⟩ := h
  rw [List.append_assoc, List.singleton_append] at ht
  exact hne (firstSep_unique ha hp ht).1

theorem classifyMedia_document {m : Msg} {mime : List Char} (hp : m.photo = false)
    (hv : m.video = false) (hd : m.document = some mime) :
    classifyMedia m =
      (if startsWithL mime "image/".toList then some (MediaKind.image, lastSegOf mime)
       else if startsWithL mime "video/".toList then some (MediaKind.video, lastSegOf mime)
       else some (MediaKind.file, if '/' ∈ mime then lastSegOf mime else "bin".toList)) := by
  unfold classifyMedia
  rw [hp, hv, hd]
  rfl

theorem branchEvalImage {mime : List Char} (h : startsWithL mime "image/".toList = true) :
    (if startsWithL mime "image/".toList then some (MediaKind.image, lastSegOf mime)
     else if startsWithL mime "video/".toList then some (MediaKind.video, lastSegOf mime)
     else some (MediaKind.file, if '/' ∈ mime then lastSegOf mime else "bin".toList)) =
      some (MediaKind.image, lastSegOf mime) := by
  rw [h]
  simp

theorem branchEvalVideo {mime : List Char}
    (hni : startsWithL mime "image/".toList = false)
    (h : startsWithL mime "video/".toList = true) :
    (if startsWithL mime "image/".toList then some (MediaKind.image, lastSegOf mime)
     else if startsWithL mime "video/".toList then some (MediaKind.video, lastSegOf mime)
     else some (MediaKind.file, if '/' ∈ mime then lastSegOf mime else "bin".toList)) =
      some (MediaKind.video, lastSegOf mime) := by
  rw [hni, h]
  simp

theorem branchEvalFileSlash {mime : List Char}
    (hni : startsWithL mime "image/".toList = false)
    (hnv : startsWithL mime "video/".toList = false)
    (hmem : '/' ∈ mime) :
    (if startsWithL mime "image/".toList then some (MediaKind.image, lastSegOf mime)
     else if startsWithL mime "video/".toList then some (MediaKind.video, lastSegOf mime)
     else some (MediaKind.file, if '/' ∈ mime then lastSegOf mime else "bin".toList)) =
      some (MediaKind.file, lastSegOf mime) := by
  rw [hni, hnv]
  simp [hmem]

theorem branchEvalFileNoSlash {mime : List Char}
    (hni : startsWithL mime "image/".toList = false)
    (hnv : startsWithL mime "video/".toList = false)
    (hmem : '/' ∉ mime) :
    (if startsWithL mime "image/".toList then some (MediaKind.image, lastSegOf mime)
     else if startsWithL mime "video/".toList then some (MediaKind.video, lastSegOf mime)
     else some (MediaKind.file, if '/' ∈ mime then lastSegOf mime else "bin".toList)) =
      some (MediaKind.file, "bin".toList) := by
  rw [hni, hnv]
  simp [hmem]

/-! ### C3, C4, C5 -/

/-- C5: the byte-size formatter maps 1023 to `1023.00B`, 1024 to `1.00KB` and
1048576 to `1.00MB` (and, for the remaining units, 1024³ to `1.00GB` and 1024⁴
to `1.00TB`): unit boundaries are 1024-based with two decimals over
B/KB/MB/GB/TB. -/
theorem format_bytes_unit_boundaries :
    format_bytes 1023 = "1023.00B".toList ∧
    format_bytes 1024 = "1.00KB".toList ∧
    format_bytes 1048576 = "1.00MB".toList ∧
    format_bytes (1024 ^ 3) = "1.00GB".toList ∧
    format_bytes (1024 ^ 4) = "1.00TB".toList := by
  refine ⟨by decide, by decide, by decide, by decide, by decide⟩

/-- C3: a message with a generic document payload and no native photo/video is
classified by its MIME type: `image/<sub>` → Image with extension `<sub>`,
`video/<sub>` → Video with extension `<sub>` (saved under the video
subfolder), any other `<type>/<sub>` → File with extension `<sub>`, and a MIME
type without `/` → File with extension `bin`; in particular `video/webm` →
Video/`webm`. -/
theorem classify_document_mime :
    (∀ (m : Msg) (s : List Char), m.photo = false → m.video = false →
        '/' ∉ s → m.document = some ("image/".toList ++ s) →
        classifyMedia m = some (MediaKind.image, s)) ∧
    (∀ (m : Msg) (s : List Char), m.photo = false → m.video = false →
        '/' ∉ s → m.document = some ("video/".toList ++ s) →
        classifyMedia m = some (MediaKind.video, s) ∧
        ∀ base : FsPath, saveDirParts base MediaKind.video = base ++ [videosSub]) ∧
    (∀ (m : Msg) (a s : List Char), m.photo = false → m.video = false →
        '/' ∉ a → '/' ∉ s → a ≠ "image".toList → a ≠ "video".toList →
        m.document = some (a ++ '/' :: s) →
        classifyMedia m = some (MediaKind.file, s)) ∧
    (∀ (m : Msg) (t : List Char), m.photo = false → m.video = false →
        '/' ∉ t → m.document = some t →
        classifyMedia m = some (MediaKind.file, "bin".toList)) ∧
    (∀ (m : Msg), m.photo = false → m.video = false →
        m.document = some "video/webm".toList →
        classifyMedia m = some (MediaKind.video, "webm".toList) ∧
        ∀ base : FsPath, saveDirParts base MediaKind.video = base ++ [videosSub]) := by
  have himg : "image/".toList = "image".toList ++ ['/'] := by decide
  have hvid : "video/".toList = "video".toList ++ ['/'] := by decide
  have himg' : '/' ∉ "image".toList := by decide
  have hvid' : '/' ∉ "video".toList := by decide
  refine ⟨?_, ?_, ?_, ?_, ?_⟩
  · intro m s hp hv hs hd
    have h1 : "image/".toList ++ s = "image".toList ++ '/' :: s := by
      rw [himg, List.append_assoc, List.singleton_append]
    have hsw : startsWithL ("image/".toList ++ s) "image/".toList = true :=
      startsWithL_append _ _
    have hlast : lastSegOf ("image/".toList ++ s) = s := by
      rw [h1]; exact lastSegOf_sep himg' hs
    exact ((classifyMedia_document hp hv hd).trans (branchEvalImage hsw)).trans
      (congrArg (fun e => some (MediaKind.image, e)) hlast)
  · intro m s hp hv hs hd
    refine ⟨?_, fun base => rfl⟩
    have h1 : "video/".toList ++ s = "video".toList ++ '/' :: s := by
      rw [hvid, List.append_assoc, List.singleton_append]
    have hni : startsWithL ("video/".toList ++ s) "image/".toList = false := by
      rw [h1, himg]
      exact not_startsWithL_seg hvid' himg' (by decide)
    have hsw : startsWithL ("video/".toList ++ s) "video/".toList = true :=
      startsWithL_append _ _
    have hlast : lastSegOf ("video/".toList ++ s) = s := by
      rw [h1]; exact lastSegOf_sep hvid' hs
    exact ((classifyMedia_document hp hv hd).trans (branchEvalVideo hni hsw)).trans
      (congrArg (fun e => some (MediaKind.video, e)) hlast)
  · intro m a s hp hv ha hs hnei hnev hd
    have hni : startsWithL (a ++ '/' :: s) "image/".toList = false := by
      rw [himg]; exact not_startsWithL_seg ha himg' hnei
    have hnv : startsWithL (a ++ '/' :: s) "video/".toList = false := by
      rw [hvid]; exact not_startsWithL_seg ha hvid' hnev
    have hmem : '/' ∈ a ++ '/' :: s := by simp
    have hlast := lastSegOf_sep ha hs
    exact ((classifyMedia_document hp hv hd).trans
      (branchEvalFileSlash hni hnv hmem)).trans
      (congrArg (fun e => some (MediaKind.file, e)) hlast)
  · intro m t hp hv ht hd
    have hni : startsWithL t "image/".toList = false := by
      by_contra hcon
      rw [Bool.not_eq_false, startsWithL_iff_exists] at hcon
      obtain ⟨r, hr⟩ := hcon
      apply ht
      rw [hr, himg, List.append_assoc, List.singleton_append]
      simp
    have hnv : startsWithL t "video/".toList = false := by
      by_contra hcon
      rw [Bool.not_eq_false, startsWithL_iff_exists] at hcon
      obtain ⟨r, hr⟩ := hcon
      apply ht
      rw [hr, hvid, List.append_assoc, List.singleton_append]
      simp
    exact (classifyMedia_document hp hv hd).trans (branchEvalFileNoSlash hni hnv ht)
  · intro m hp hv hd
    refine ⟨?_, fun base => rfl⟩
    exact (classifyMedia_document hp hv hd).trans (by decide)

/-- C3 witness: the image branch applied to a concrete `image/png` document
message. -/
theorem classify_document_mime_witness :
    ('/' ∉ "png".toList) ∧
    classifyMedia ⟨7, false, false, false, some "image/png".toList, []⟩ =
      some (MediaKind.image, "png".toList) :=
  ⟨by decide,
   classify_document_mime.1 ⟨7, false, false, false, some "image/png".toList, []⟩
     "png".toList rfl rfl (by decide) (by decide)⟩

/-- C4 counterexample: with a valid host and second path segment `-5`, the
parser succeeds and returns the negative message id `-5` instead of failing
with `InvalidMessageId` — Python `int` accepts a sign, so "non-negative" is
wrong. -/
theorem parse_channel_post_link_accepts_negative_id :
    parse_channel_post_link ⟨"t.me".toList, "/chan/-5".toList⟩ =
      Except.ok ("chan".toList, -5) ∧ (-5 : Int) < 0 :=
  ⟨by decide, by decide⟩

/-- C4 (amended): for a URL with an accepted host and at least two non-empty
path segments, parsing succeeds exactly when the second segment parses as a
Python integer — sign included, so the returned message id may be negative —
returning the username (leading `@` stripped) and that integer, and fails with
`InvalidMessageId` when the segment does not parse as an integer. -/
theorem parse_channel_post_link_integer_segment :
    ∀ (u : UrlParts) (p0 p1 : List Char) (rest : List (List Char)),
      u.netloc ∈ telegramHosts →
      pathParts u.path = p0 :: p1 :: rest →
      (∀ n : Int, pyInt? p1 = some n →
          parse_channel_post_link u = Except.ok (stripAt p0, n)) ∧
      (pyInt? p1 = none →
          parse_channel_post_link u = Except.error LinkError.invalidMessageId) := by
  intro u p0 p1 rest hn hp
  unfold parse_channel_post_link
  rw [if_pos hn, hp]
  dsimp only
  constructor
  · intro n h
    rw [h]
  · intro h
    rw [h]

/-- C4 witness: the amended theorem applied to `t.me/@chan/42`. -/
theorem parse_channel_post_link_integer_segment_witness :
    (⟨"t.me".toList, "/@chan/42".toList⟩ : UrlParts).netloc ∈ telegramHosts ∧
    parse_channel_post_link ⟨"t.me".toList, "/@chan/42".toList⟩ =
      Except.ok ("chan".toList, 42) :=
  ⟨by decide,
   (parse_channel_post_link_integer_segment ⟨"t.me".toList, "/@chan/42".toList⟩
     "@chan".toList "42".toList [] (by decide) (by decide)).1 42 (by decide)⟩

/-! ### Per-item failure isolation (C8) -/

theorem classifyMedia_isSome_of_hasMedia {m : Msg} (h : hasMedia m = true) :
    (classifyMedia m).isSome = true := by
  unfold hasMedia at h
  unfold classifyMedia
  cases hp : m.photo with
  | true => simp
  | false =>
    cases hv : m.video with
    | true => simp
    | false =>
      rw [hp, hv] at h
      simp only [Bool.false_or] at h
      cases hd : m.document with
      | none => rw [hd] at h; simp at h
      | some mime =>
        simp only [Bool.false_eq_true, if_false]
        split
        · rfl
        · split
          · rfl
          · rfl

theorem runItem_ok (env : DownloadEnv) (dir : FsPath) (idx : Nat) (m : Msg) (ext : List Char) :
    (runItem env dir idx m ext).ok = (env.transferOk m.id && env.renameOk m.id) := by
  unfold runItem
  by_cases h1 : env.transferOk m.id <;> by_cases h2 : env.renameOk m.id <;> simp [h1, h2]

theorem runItem_failed (env : DownloadEnv) (dir : FsPath) (idx : Nat) (m : Msg) (ext : List Char) :
    (runItem env dir idx m ext).failed =
      (if env.transferOk m.id && env.renameOk m.id then none else some m.id) := by
  unfold runItem
  by_cases h1 : env.transferOk m.id <;> by_cases h2 : env.renameOk m.id <;> simp [h1, h2]

theorem snd_mem_of_mem_enumFrom {α : Type} {l : List α} :
    ∀ {n : Nat} {p : Nat × α}, p ∈ l.enumFrom n → p.2 ∈ l := by
  induction l with
  | nil => intro n p h; cases h
  | cons a as ih =>
    intro n p h
    rcases List.mem_cons.mp h with h | h
    · rw [h]; exact List.mem_cons_self _ _
    · exact List.mem_cons_of_mem _ (ih h)

theorem filter_comp_snd (q : Msg → Bool) (ps : List (Nat × Msg)) :
    (ps.filter (fun p => q p.2)).map (fun p => p.2) = (ps.map (fun p => p.2)).filter q := by
  induction ps with
  | nil => rfl
  | cons p rest ih => by_cases h : q p.2 <;> simp [List.filter_cons, h, ih]

theorem processItems_spec (env : DownloadEnv) (base : FsPath) :
    ∀ ps : List (Nat × Msg), (∀ p ∈ ps, hasMedia p.2 = true) →
      (processItems env base ps).downloaded =
        (ps.filter (fun p => env.transferOk p.2.id && env.renameOk p.2.id)).length ∧
      (processItems env base ps).attempted = ps.map (fun p => p.2.id) ∧
      (processItems env base ps).failedLog =
        (ps.filter (fun p => !(env.transferOk p.2.id && env.renameOk p.2.id))).map
          (fun p => p.2.id) := by
  intro ps hmed
  induction ps with
  | nil => exact ⟨rfl, rfl, rfl⟩
  | cons p rest ih =>
    have hp := hmed p (List.mem_cons_self _ _)
    obtain ⟨ih1, ih2, ih3⟩ := ih (fun q hq => hmed q (List.mem_cons_of_mem _ hq))
    have hsome := classifyMedia_isSome_of_hasMedia hp
    obtain ⟨⟨kind, ext⟩, hc⟩ := Option.isSome_iff_exists.mp hsome
    unfold processItems
    rw [hc]
    dsimp only
    rw [runItem_ok, runItem_failed]
    by_cases ho : (env.transferOk p.2.id && env.renameOk p.2.id) = true
    · obtain ⟨ha, hb⟩ := Bool.and_eq_true_iff.mp ho
      refine ⟨?_, ?_, ?_⟩
      · simp [List.filter_cons, ha, hb, ih1]
        omega
      · simp [ih2]
      · simp [List.filter_cons, ha, hb, ih3]
    · have ho' : (env.transferOk p.2.id && env.renameOk p.2.id) = false :=
        Bool.not_eq_true _ ▸ (by simpa using ho)
      rcases Bool.and_eq_false_iff.mp ho' with ha | hb
      · refine ⟨?_, ?_, ?_⟩
        · simp [List.filter_cons, ha, ih1]
        · simp [ih2]
        · simp [List.filter_cons, ha, ih3]
      · refine ⟨?_, ?_, ?_⟩
        · simp [List.filter_cons, hb, ih1]
        · simp [ih2]
        · simp [List.filter_cons, hb, ih3]

theorem botSelect_mem {msgs : List Msg} {m : Msg} (hm : m ∈ botSelect msgs) :
    m ∈ msgs ∧ m.out = false ∧ hasMedia m = true := by
  unfold botSelect at hm
  rw [(sortLe_perm _ _).mem_iff] at hm
  have h1 := List.of_mem_filter hm
  have h2 := List.mem_of_mem_filter hm
  simp only [Bool.and_eq_true, Bool.not_eq_true'] at h1
  exact ⟨h2, h1.1, h1.2⟩

theorem download_media_messages_spec (env : DownloadEnv) (msgs : List Msg) (base : FsPath)
    (k : Nat) :
    (download_media_messages env msgs base k).items.attempted =
      (botSelect msgs).map Msg.id ∧
    (download_media_messages env msgs base k).items.downloaded =
      ((botSelect msgs).filter (fun m => env.transferOk m.id && env.renameOk m.id)).length ∧
    (download_media_messages env msgs base k).items.failedLog =
      ((botSelect msgs).filter
        (fun m => !(env.transferOk m.id && env.renameOk m.id))).map Msg.id := by
  unfold download_media_messages
  by_cases he : (botSelect msgs).isEmpty
  · have hnil : botSelect msgs = [] := List.isEmpty_iff.mp he
    rw [if_pos he, hnil]
    exact ⟨rfl, rfl, rfl⟩
  · rw [if_neg he]
    have hmed : ∀ p ∈ (botSelect msgs).enumFrom (k + 1), hasMedia p.2 = true :=
      fun p hp => (botSelect_mem (snd_mem_of_mem_enumFrom hp)).2.2
    obtain ⟨h1, h2, h3⟩ := processItems_spec env base _ hmed
    refine ⟨?_, ?_, ?_⟩
    · rw [h2]
      have := congrArg (List.map Msg.id) (List.enumFrom_map_snd (k + 1) (botSelect msgs))
      rw [← this, List.map_map]
      rfl
    · rw [h1]
      have := congrArg (List.filter (fun m => env.transferOk m.id && env.renameOk m.id))
        (List.enumFrom_map_snd (k + 1) (botSelect msgs))
      rw [← this, ← filter_comp_snd, List.length_map]
    · rw [h3]
      have := congrArg
        (fun l => (List.filter (fun m => !(env.transferOk m.id && env.renameOk m.id)) l).map
          Msg.id) (List.enumFrom_map_snd (k + 1) (botSelect msgs))
      dsimp only at this
      rw [← this, ← filter_comp_snd, List.map_map]
      rfl

/-- C8: in both download loops, a transfer or rename failure of one item is
caught and logged with the originating message id and the loop continues:
every selected message is attempted regardless of other items' failures, the
downloaded count is exactly the number of items whose transfer and rename both
succeed, and the failure log lists exactly the ids of the failing items. -/
theorem per_item_failure_isolation :
    (∀ (env : DownloadEnv) (msgs : List Msg) (base : FsPath) (k : Nat),
      (download_media_messages env msgs base k).items.attempted =
        (botSelect msgs).map Msg.id ∧
      (download_media_messages env msgs base k).items.downloaded =
        ((botSelect msgs).filter (fun m => env.transferOk m.id && env.renameOk m.id)).length ∧
      (download_media_messages env msgs base k).items.failedLog =
        ((botSelect msgs).filter
          (fun m => !(env.transferOk m.id && env.renameOk m.id))).map Msg.id) ∧
    (∀ (env : DownloadEnv) (m : Msg) (base : FsPath) (i : Nat), hasMedia m = true →
      (download_media_from_message env m base i).success =
        (env.transferOk m.id && env.renameOk m.id) ∧
      (download_media_from_message env m base i).failedLog =
        (if env.transferOk m.id && env.renameOk m.id then [] else [m.id])) := by
  refine ⟨download_media_messages_spec, ?_⟩
  intro env m base i hm
  obtain ⟨⟨kind, ext⟩, hc⟩ :=
    Option.isSome_iff_exists.mp (classifyMedia_isSome_of_hasMedia hm)
  unfold download_media_from_message
  rw [hc]
  dsimp only
  rw [runItem_ok, runItem_failed]
  refine ⟨rfl, ?_⟩
  by_cases ho : (env.transferOk m.id && env.renameOk m.id) = true
  · simp [ho]
  · have ho' : (env.transferOk m.id && env.renameOk m.id) = false :=
      Bool.not_eq_true _ ▸ (by simpa using ho)
    simp [ho']

/-- C8 witness: concrete instance of the comment-flow conjunct with a failing
rename for message id 9. -/
theorem per_item_failure_isolation_witness :
    hasMedia (⟨9, false, true, false, none, []⟩ : Msg) = true ∧
    (download_media_from_message ⟨fun _ => true, fun _ => false, 0⟩
        ⟨9, false, true, false, none, []⟩ ["r".toList] 1).failedLog = [9] :=
  ⟨by decide,
   ((per_item_failure_isolation.2 ⟨fun _ => true, fun _ => false, 0⟩
      ⟨9, false, true, false, none, []⟩ ["r".toList] 1 (by decide)).2).trans (by decide)⟩

/-! ### Subfolder creation (C9) -/

theorem download_media_from_message_dirs (env : DownloadEnv) (m : Msg) (base : FsPath)
    (i : Nat) (kind : MediaKind) (ext : List Char)
    (hc : classifyMedia m = some (kind, ext)) :
    (download_media_from_message env m base i).dirsCreated = [saveDirParts base kind] ∧
    ∀ p ∈ (download_media_from_message env m base i).writes,
      startsWithL p (saveDirParts base kind) = true := by
  unfold download_media_from_message
  rw [hc]
  dsimp only
  refine ⟨rfl, ?_⟩
  intro p hp
  cases h1 : env.transferOk m.id with
  | false => simp [runItem, h1] at hp
  | true =>
    cases h2 : env.renameOk m.id with
    | false =>
      simp [runItem, h1, h2] at hp
      rw [hp]
      exact startsWithL_append _ _
    | true =>
      simp [runItem, h1, h2] at hp
      rcases hp with hp | hp <;> rw [hp] <;> exact startsWithL_append _ _

theorem download_media_messages_dirs (env : DownloadEnv) (msgs : List Msg) (base : FsPath)
    (k : Nat) :
    (download_media_messages env msgs base k).dirsCreated =
      (if botSelect msgs = [] then [] else [base ++ [imagesSub], base ++ [videosSub]]) := by
  unfold download_media_messages
  by_cases he : (botSelect msgs).isEmpty
  · rw [if_pos he, if_pos (List.isEmpty_iff.mp he)]
  · rw [if_neg he, if_neg (fun hnil => he (by rw [hnil]; rfl))]

/-- C9 (amended): in the comment and topic flows the destination subfolder is
created lazily and idempotently, immediately before the write into it, and
only that directory is created; a message with no media creates nothing.  In
the bot flow, however, both the image and the video subfolders are created
eagerly as soon as the selected batch is non-empty — even when no item of the
corresponding kind will be written into them — and nothing is created when the
batch is empty. -/
theorem subfolder_creation_spec :
    (∀ (env : DownloadEnv) (m : Msg) (base : FsPath) (i : Nat) (kind : MediaKind)
        (ext : List Char), classifyMedia m = some (kind, ext) →
        (download_media_from_message env m base i).dirsCreated = [saveDirParts base kind] ∧
        ∀ p ∈ (download_media_from_message env m base i).writes,
          startsWithL p (saveDirParts base kind) = true) ∧
    (∀ (env : DownloadEnv) (m : Msg) (base : FsPath) (i : Nat),
        classifyMedia m = none →
        (download_media_from_message env m base i).dirsCreated = [] ∧
        (download_media_from_message env m base i).writes = []) ∧
    (∀ (env : DownloadEnv) (msgs : List Msg) (base : FsPath) (k : Nat),
        (download_media_messages env msgs base k).dirsCreated =
          (if botSelect msgs = [] then []
           else [base ++ [imagesSub], base ++ [videosSub]])) := by
  refine ⟨download_media_from_message_dirs, ?_, download_media_messages_dirs⟩
  intro env m base i hc
  unfold download_media_from_message
  rw [hc]
  exact ⟨rfl, rfl⟩

/-- C9 witness: the lazy-creation conjunct applied to a concrete photo
message: only the image subfolder is created. -/
theorem subfolder_creation_spec_witness :
    classifyMedia (⟨5, false, true, false, none, []⟩ : Msg) =
      some (MediaKind.image, "jpg".toList) ∧
    (download_media_from_message ⟨fun _ => true, fun _ => true, 0⟩
        ⟨5, false, true, false, none, []⟩ ["r".toList] 1).dirsCreated =
      [saveDirParts ["r".toList] MediaKind.image] :=
  ⟨by decide,
   (subfolder_creation_spec.1 ⟨fun _ => true, fun _ => true, 0⟩
      ⟨5, false, true, false, none, []⟩ ["r".toList] 1 MediaKind.image "jpg".toList
      (by decide)).1⟩

/-- C9 counterexample: a bot-flow batch whose only media item is a generic
document (kind File, written to the base directory) still creates the image
subfolder — the subfolders are not created lazily before the first write into
them, contradicting the claim for the bot flow. -/
theorem bot_creates_unused_subfolders :
    (["root".toList, imagesSub] : FsPath) ∈
      (download_media_messages ⟨fun _ => true, fun _ => true, 0⟩
        [⟨6, false, false, false, some "application/pdf".toList, []⟩]
        ["root".toList] 0).dirsCreated ∧
    ∀ p ∈ (download_media_messages ⟨fun _ => true, fun _ => true, 0⟩
        [⟨6, false, false, false, some "application/pdf".toList, []⟩]
        ["root".toList] 0).items.writes,
      startsWithL p (["root".toList, imagesSub] : FsPath) = false := by
  decide

/-! ### Comment-flow resume offset (C7) and outbound filtering (C10) -/

/-- C7: after filtering to media-bearing comments and sorting ascending by id,
a start-from value of `k ≥ 1` drops exactly the first `k - 1` items, and the
download loop receives the remainder with sequence indices `k, k + 1, ...`. -/
theorem comment_start_from_plan :
    ∀ (env : DownloadEnv) (comments : List Msg) (base : FsPath) (k : Nat), 1 ≤ k →
      (download_comments_media env comments base k).plan.map Prod.snd =
        (sortedMediaComments comments).drop (k - 1) ∧
      (download_comments_media env comments base k).plan.map Prod.fst =
        List.range' k ((sortedMediaComments comments).length - (k - 1)) := by
  intro env comments base k hk
  unfold download_comments_media
  dsimp only
  unfold commentPlan
  by_cases h1 : 1 < k
  · rw [if_pos h1]
    by_cases h2 : (sortedMediaComments comments).length < k
    · rw [if_pos h2]
      have hd : (sortedMediaComments comments).drop (k - 1) = [] :=
        List.drop_eq_nil_of_le (by omega)
      have hr : (sortedMediaComments comments).length - (k - 1) = 0 := by omega
      rw [hd, hr]
      exact ⟨rfl, rfl⟩
    · rw [if_neg h2]
      refine ⟨List.enumFrom_map_snd _ _, ?_⟩
      rw [List.enumFrom_map_fst, List.length_drop]
  · have hk1 : k = 1 := by omega
    rw [if_neg h1, hk1]
    refine ⟨List.enumFrom_map_snd _ _, ?_⟩
    rw [List.enumFrom_map_fst]
    simp

/-- Ten media-bearing comments, ids 1..10, for the C7 scenario. -/
def exComments : List Msg :=
  [⟨1, false, true, false, none, []⟩, ⟨2, false, true, false, none, []⟩,
   ⟨3, false, true, false, none, []⟩, ⟨4, false, true, false, none, []⟩,
   ⟨5, false, true, false, none, []⟩, ⟨6, false, true, false, none, []⟩,
   ⟨7, false, true, false, none, []⟩, ⟨8, false, true, false, none, []⟩,
   ⟨9, false, true, false, none, []⟩, ⟨10, false, true, false, none, []⟩]

/-- C7 witness: with `start-from = 5` and 10 media comments, exactly the
indices 5..10 are planned (6 items). -/
theorem comment_start_from_plan_witness :
    1 ≤ 5 ∧
    (download_comments_media ⟨fun _ => true, fun _ => true, 0⟩ exComments
        ["r".toList] 5).plan.map Prod.fst = [5, 6, 7, 8, 9, 10] :=
  ⟨by decide,
   ((comment_start_from_plan ⟨fun _ => true, fun _ => true, 0⟩ exComments
      ["r".toList] 5 (by decide)).2).trans (by decide)⟩

/-- C10: the bot flow never downloads an outbound message and never considers
an outbound message's buttons for next-page selection; the comment flow (and
the identical topic flow) applies no outbound filter — every outbound message
carrying media is part of its download plan. -/
theorem outbound_filter_spec :
    (∀ (msgs : List Msg) (m : Msg), m ∈ botSelect msgs → m.out = false) ∧
    (∀ (msgs : List Msg) (cp : Nat) (m : Msg) (b : Button),
        find_next_page_button msgs cp = some (m, b) → m.out = false) ∧
    (∀ (env : DownloadEnv) (comments : List Msg) (base : FsPath) (m : Msg),
        m ∈ comments → hasMedia m = true →
        m ∈ (download_comments_media env comments base 1).plan.map Prod.snd) := by
  refine ⟨fun msgs m hm => (botSelect_mem hm).2.1, ?_, ?_⟩
  · intro msgs cp m b h
    unfold find_next_page_button at h
    cases hs : sortLe (fun a b => decide (b.id ≤ a.id)) (msgs.filter qualMsg) with
    | nil => rw [hs] at h; exact absurd h (by simp)
    | cons latest rest =>
      rw [hs] at h
      dsimp only at h
      have hlm : m = latest := by
        rcases hsc : (latest.buttons.flatten.foldl (scanStep (natStr (cp + 1)))
            (none, none)) with ⟨a1, p1⟩
        rw [hsc] at h
        cases a1 with
        | some b1 => cases h; rfl
        | none =>
          cases p1 with
          | some b2 => cases h; rfl
          | none => exact absurd h (by simp)
      have hmem : latest ∈ sortLe (fun a b => decide (b.id ≤ a.id)) (msgs.filter qualMsg) := by
        rw [hs]; exact List.mem_cons_self _ _
      have hq : qualMsg latest = true :=
        List.of_mem_filter ((sortLe_perm _ _).mem_iff.mp hmem)
      rw [hlm]
      have h1 := (Bool.and_eq_true_iff.mp hq).1
      exact (Bool.not_eq_true' latest.out) ▸ h1
  · intro env comments base m hm hmed
    have hsor : m ∈ sortedMediaComments comments := by
      unfold sortedMediaComments
      exact (sortLe_perm _ _).mem_iff.mpr (List.mem_filter.mpr ⟨hm, hmed⟩)
    unfold download_comments_media
    dsimp only
    unfold commentPlan
    rw [if_neg (by omega)]
    rw [List.enumFrom_map_snd]
    exact hsor

/-- C10 witness: the comment flow plans the download of a concrete outbound
photo message. -/
theorem outbound_filter_spec_witness :
    (⟨4, true, true, false, none, []⟩ : Msg) ∈ [(⟨4, true, true, false, none, []⟩ : Msg)] ∧
    hasMedia (⟨4, true, true, false, none, []⟩ : Msg) = true ∧
    (⟨4, true, true, false, none, []⟩ : Msg) ∈
      (download_comments_media ⟨fun _ => true, fun _ => true, 0⟩
        [⟨4, true, true, false, none, []⟩] ["r".toList] 1).plan.map Prod.snd :=
  ⟨by decide, by decide,
   outbound_filter_spec.2.2 ⟨fun _ => true, fun _ => true, 0⟩
     [⟨4, true, true, false, none, []⟩] ["r".toList] ⟨4, true, true, false, none, []⟩
     (by decide) (by decide)⟩

/-! ### Button scan characterization (C6) -/

theorem scanStep_cases (nn : List Char) (st : Option Button × Option Button) (c : Button) :
    (qualB c = true ∧ isArrowText c.text = true ∧ scanStep nn st c = (some c, st.2)) ∨
    (qualB c = true ∧ isArrowText c.text = false ∧ containsSub c.text nn = true ∧
      scanStep nn st c = (st.1, some c)) ∨
    ((qualB c = false ∨ (isArrowText c.text = false ∧ containsSub c.text nn = false)) ∧
      scanStep nn st c = st) := by
  by_cases h1 : hasCallback c = true
  · by_cases h2 : dataOf c = pageInfoTok
    · right; right
      constructor
      · left; simp [qualB, h2]
      · simp [scanStep, h1, h2]
    · have hq : qualB c = true := by simp [qualB, h1, h2]
      by_cases h3 : isArrowText c.text = true
      · left
        exact ⟨hq, h3, by simp [scanStep, h1, h2, h3]⟩
      · have h3' : isArrowText c.text = false := Bool.not_eq_true _ ▸ (by simpa using h3)
        by_cases h4 : containsSub c.text nn = true
        · right; left
          exact ⟨hq, h3', h4, by simp [scanStep, h1, h2, h3', h4]⟩
        · have h4' : containsSub c.text nn = false := Bool.not_eq_true _ ▸ (by simpa using h4)
          right; right
          exact ⟨Or.inr ⟨h3', h4'⟩, by simp [scanStep, h1, h2, h3', h4']⟩
  · have h1' : hasCallback c = false := Bool.not_eq_true _ ▸ (by simpa using h1)
    right; right
    constructor
    · left; simp [qualB, h1']
    · simp [scanStep, h1']

theorem scan_fst_some {nn : List Char} {b : Button} :
    ∀ (l : List Button) (st : Option Button × Option Button),
      (l.foldl (scanStep nn) st).1 = some b →
      st.1 = some b ∨ (b ∈ l ∧ qualB b = true ∧ isArrowText b.text = true) := by
  intro l
  induction l with
  | nil => intro st h; exact Or.inl h
  | cons c t ih =>
    intro st h
    rw [List.foldl_cons] at h
    rcases ih (scanStep nn st c) h with h0 | ⟨hm, hq, ha⟩
    · rcases scanStep_cases nn st c with ⟨hq, ha, he⟩ | ⟨_, _, _, he⟩ | ⟨_, he⟩
      · rw [he] at h0
        simp only at h0
        cases h0
        exact Or.inr ⟨List.mem_cons_self _ _, hq, ha⟩
      · rw [he] at h0
        exact Or.inl h0
      · rw [he] at h0
        exact Or.inl h0
    · exact Or.inr ⟨List.mem_cons_of_mem _ hm, hq, ha⟩

theorem scan_fst_none {nn : List Char} :
    ∀ (l : List Button) (st : Option Button × Option Button),
      (l.foldl (scanStep nn) st).1 = none →
      st.1 = none ∧ ∀ b ∈ l, ¬(qualB b = true ∧ isArrowText b.text = true) := by
  intro l
  induction l with
  | nil => intro st h; exact ⟨h, by simp⟩
  | cons c t ih =>
    intro st h
    rw [List.foldl_cons] at h
    obtain ⟨h0, htail⟩ := ih (scanStep nn st c) h
    rcases scanStep_cases nn st c with ⟨hq, ha, he⟩ | ⟨hq, ha, hn, he⟩ | ⟨hcond, he⟩
    · rw [he] at h0
      simp at h0
    · rw [he] at h0
      refine ⟨h0, ?_⟩
      intro b hb
      rcases List.mem_cons.mp hb with hbc | hbt
      · rw [hbc]
        intro hcon
        rw [ha] at hcon
        exact Bool.false_ne_true hcon.2
      · exact htail b hbt
    · rw [he] at h0
      refine ⟨h0, ?_⟩
      intro b hb
      rcases List.mem_cons.mp hb with hbc | hbt
      · rw [hbc]
        intro hcon
        rcases hcond with hq | ⟨ha, _⟩
        · rw [hq] at hcon; exact Bool.false_ne_true hcon.1
        · rw [ha] at hcon; exact Bool.false_ne_true hcon.2
      · exact htail b hbt

theorem scan_snd_some {nn : List Char} {b : Button} :
    ∀ (l : List Button) (st : Option Button × Option Button),
      (l.foldl (scanStep nn) st).2 = some b →
      st.2 = some b ∨ (b ∈ l ∧ qualB b = true ∧ isArrowText b.text = false ∧
        containsSub b.text nn = true) := by
  intro l
  induction l with
  | nil => intro st h; exact Or.inl h
  | cons c t ih =>
    intro st h
    rw [List.foldl_cons] at h
    rcases ih (scanStep nn st c) h with h0 | ⟨hm, hq, ha, hn⟩
    · rcases scanStep_cases nn st c with ⟨_, _, he⟩ | ⟨hq, ha, hn, he⟩ | ⟨_, he⟩
      · rw [he] at h0
        exact Or.inl h0
      · rw [he] at h0
        simp only at h0
        cases h0
        exact Or.inr ⟨List.mem_cons_self _ _, hq, ha, hn⟩
      · rw [he] at h0
        exact Or.inl h0
    · exact Or.inr ⟨List.mem_cons_of_mem _ hm, hq, ha, hn⟩

theorem scan_snd_none {nn : List Char} :
    ∀ (l : List Button) (st : Option Button × Option Button),
      (l.foldl (scanStep nn) st).2 = none →
      st.2 = none ∧ ∀ b ∈ l, ¬(qualB b = true ∧ isArrowText b.text = false ∧
        containsSub b.text nn = true) := by
  intro l
  induction l with
  | nil => intro st h; exact ⟨h, by simp⟩
  | cons c t ih =>
    intro st h
    rw [List.foldl_cons] at h
    obtain ⟨h0, htail⟩ := ih (scanStep nn st c) h
    rcases scanStep_cases nn st c with ⟨hq, ha, he⟩ | ⟨hq, ha, hn, he⟩ | ⟨hcond, he⟩
    · rw [he] at h0
      refine ⟨h0, ?_⟩
      intro b hb
      rcases List.mem_cons.mp hb with hbc | hbt
      · rw [hbc]
        intro hcon
        exact absurd (ha.symm.trans hcon.2.1) (by decide)
      · exact htail b hbt
    · rw [he] at h0
      simp at h0
    · rw [he] at h0
      refine ⟨h0, ?_⟩
      intro b hb
      rcases List.mem_cons.mp hb with hbc | hbt
      · rw [hbc]
        intro hcon
        rcases hcond with hq | ⟨ha, hn⟩
        · rw [hq] at hcon; exact Bool.false_ne_true hcon.1
        · rw [hn] at hcon; exact Bool.false_ne_true hcon.2.2
      · exact htail b hbt

theorem sortLe_desc_head {msgs : List Msg} {latest : Msg} {rest : List Msg}
    (hs : sortLe (fun a b => decide (b.id ≤ a.id)) (msgs.filter qualMsg) = latest :: rest) :
    qualMsg latest = true ∧ latest ∈ msgs ∧
      ∀ m' ∈ msgs, qualMsg m' = true → m'.id ≤ latest.id := by
  have hmemsort : latest ∈ sortLe (fun a b => decide (b.id ≤ a.id)) (msgs.filter qualMsg) := by
    rw [hs]; exact List.mem_cons_self _ _
  have hmemfil : latest ∈ msgs.filter qualMsg := (sortLe_perm _ _).mem_iff.mp hmemsort
  have hpair : (sortLe (fun a b => decide (b.id ≤ a.id)) (msgs.filter qualMsg)).Pairwise
      (fun a b => decide (b.id ≤ a.id) = true) := by
    refine sortLe_pairwise ?_ ?_ _
    · intro x y z hxy hyz
      exact decide_eq_true (Nat.le_trans (of_decide_eq_true hyz) (of_decide_eq_true hxy))
    · intro x y
      rcases Nat.le_total y.id x.id with h | h
      · exact Or.inl (decide_eq_true h)
      · exact Or.inr (decide_eq_true h)
  rw [hs] at hpair
  have hhead := (List.pairwise_cons.mp hpair).1
  refine ⟨List.of_mem_filter hmemfil, List.mem_of_mem_filter hmemfil, ?_⟩
  intro m' hm' hq
  have hmf : m' ∈ msgs.filter qualMsg := List.mem_filter.mpr ⟨hm', hq⟩
  have hms : m' ∈ latest :: rest := by
    rw [← hs]
    exact (sortLe_perm _ _).mem_iff.mpr hmf
  rcases List.mem_cons.mp hms with he | hr
  · rw [he]
  · exact of_decide_eq_true (hhead m' hr)

/-- C6 counterexample: when the single most recent message that has buttons is
an outbound one, its buttons are not considered — the function selects a
button of an older, non-outbound message, so "the single most recent message
that has any buttons" is wrong as stated. -/
theorem find_next_page_button_skips_outbound_latest :
    find_next_page_button
        [⟨10, true, false, false, none, [[⟨"▶️".toList, some "go".toList⟩]]⟩,
         ⟨5, false, false, false, none, [[⟨"▶️".toList, some "x".toList⟩]]⟩] 1 =
      some (⟨5, false, false, false, none, [[⟨"▶️".toList, some "x".toList⟩]]⟩,
        ⟨"▶️".toList, some "x".toList⟩) ∧
    (5 : Nat) < 10 ∧
    (⟨10, true, false, false, none, [[⟨"▶️".toList, some "go".toList⟩]]⟩ : Msg).buttons ≠ [] ∧
    (⟨"▶️".toList, some "x".toList⟩ : Button) ∉
      (⟨10, true, false, false, none, [[⟨"▶️".toList, some "go".toList⟩]]⟩ : Msg).buttons.flatten := by
  decide

/-- C6 (amended): for every message list and current page, the next-page
search considers only the buttons of the single most recent *non-outbound*
message that has any buttons (outbound messages' and older messages' buttons
are ignored); among those it excludes page-indicator buttons (callback token
`page_info`) and buttons without a callback token, prefers a button whose
label contains a forward-arrow glyph, otherwise selects one whose label
contains the literal next page number, and returns no button when none
qualifies. -/
theorem find_next_page_button_spec :
    ∀ (msgs : List Msg) (cp : Nat),
      (∀ (m : Msg) (b : Button), find_next_page_button msgs cp = some (m, b) →
          qualMsg m = true ∧ m ∈ msgs ∧
          (∀ m' ∈ msgs, qualMsg m' = true → m'.id ≤ m.id) ∧
          b ∈ m.buttons.flatten ∧ qualB b = true ∧
          (isArrowText b.text = true ∨ containsSub b.text (natStr (cp + 1)) = true) ∧
          ((∃ b' ∈ m.buttons.flatten, qualB b' = true ∧ isArrowText b'.text = true) →
            isArrowText b.text = true)) ∧
      ((msgs.map Msg.id).Nodup →
        find_next_page_button msgs cp = none →
        ∀ m ∈ msgs, qualMsg m = true →
          (∀ m' ∈ msgs, qualMsg m' = true → m'.id ≤ m.id) →
          ∀ b ∈ m.buttons.flatten, qualB b = true →
            isArrowText b.text = false ∧ containsSub b.text (natStr (cp + 1)) = false) := by
  intro msgs cp
  constructor
  · intro m b h
    unfold find_next_page_button at h
    cases hs : sortLe (fun a b => decide (b.id ≤ a.id)) (msgs.filter qualMsg) with
    | nil => rw [hs] at h; exact absurd h (by simp)
    | cons latest rest =>
      rw [hs] at h
      dsimp only at h
      obtain ⟨hqlat, hmemlat, hmaxlat⟩ := sortLe_desc_head hs
      rcases hsc : (latest.buttons.flatten.foldl (scanStep (natStr (cp + 1)))
          (none, none)) with ⟨a1, p1⟩
      rw [hsc] at h
      cases a1 with
      | some b1 =>
        simp only at h
        cases h
        have hfst : (List.foldl (scanStep (natStr (cp + 1))) (none, none)
            m.buttons.flatten).1 = some b := by rw [hsc]
        rcases scan_fst_some _ _ hfst with h0 | ⟨hbm, hbq, hba⟩
        · exact absurd h0 (by simp)
        · exact ⟨hqlat, hmemlat, hmaxlat, hbm, hbq, Or.inl hba, fun _ => hba⟩
      | none =>
        cases p1 with
        | some b2 =>
          simp only at h
          cases h
          have hsnd : (List.foldl (scanStep (natStr (cp + 1))) (none, none)
              m.buttons.flatten).2 = some b := by rw [hsc]
          rcases scan_snd_some _ _ hsnd with h0 | ⟨hbm, hbq, hba, hbn⟩
          · exact absurd h0 (by simp)
          · have hfstn : (List.foldl (scanStep (natStr (cp + 1))) (none, none)
                m.buttons.flatten).1 = none := by rw [hsc]
            have h1 := scan_fst_none _ _ hfstn
            refine ⟨hqlat, hmemlat, hmaxlat, hbm, hbq, Or.inr hbn, ?_⟩
            intro hex
            obtain ⟨b', hb'm, hb'q, hb'a⟩ := hex
            exact absurd ⟨hb'q, hb'a⟩ (h1.2 b' hb'm)
        | none => exact absurd h (by simp)
  · intro hnd h m hm hq hmax b hb hbq
    unfold find_next_page_button at h
    cases hs : sortLe (fun a b => decide (b.id ≤ a.id)) (msgs.filter qualMsg) with
    | nil =>
      exfalso
      have hmf : m ∈ msgs.filter qualMsg := List.mem_filter.mpr ⟨hm, hq⟩
      have : m ∈ sortLe (fun a b => decide (b.id ≤ a.id)) (msgs.filter qualMsg) :=
        (sortLe_perm _ _).mem_iff.mpr hmf
      rw [hs] at this
      exact absurd this (by simp)
    | cons latest rest =>
      rw [hs] at h
      dsimp only at h
      obtain ⟨hqlat, hmemlat, hmaxlat⟩ := sortLe_desc_head hs
      have hid : m.id = latest.id :=
        Nat.le_antisymm (hmaxlat m hm hq) (hmax latest hmemlat hqlat)
      have hmlat : m = latest :=
        List.inj_on_of_nodup_map hnd hm hmemlat hid
      rcases hsc : (latest.buttons.flatten.foldl (scanStep (natStr (cp + 1)))
          (none, none)) with ⟨a1, p1⟩
      rw [hsc] at h
      cases a1 with
      | some b1 => exact absurd h (by simp)
      | none =>
        cases p1 with
        | some b2 => exact absurd h (by simp)
        | none =>
          have hfstn : (List.foldl (scanStep (natStr (cp + 1))) (none, none)
              latest.buttons.flatten).1 = none := by rw [hsc]
          have hsndn : (List.foldl (scanStep (natStr (cp + 1))) (none, none)
              latest.buttons.flatten).2 = none := by rw [hsc]
          have h1 := scan_fst_none _ _ hfstn
          have h2 := scan_snd_none _ _ hsndn
          rw [hmlat] at hb
          have hna := h1.2 b hb
          have hnn := h2.2 b hb
          have ha : isArrowText b.text = false := by
            cases har : isArrowText b.text with
            | false => rfl
            | true => exact absurd ⟨hbq, har⟩ hna
          refine ⟨ha, ?_⟩
          cases hnum : containsSub b.text (natStr (cp + 1)) with
          | false => rfl
          | true => exact absurd ⟨hbq, ha, hnum⟩ hnn

/-- C6 witness: the amended characterization applied to a concrete single
inbound message carrying an arrow button. -/
theorem find_next_page_button_spec_witness :
    find_next_page_button
        [⟨3, false, false, false, none, [[⟨"➡️ 下一页".toList, some "p2".toList⟩]]⟩] 1 =
      some (⟨3, false, false, false, none, [[⟨"➡️ 下一页".toList, some "p2".toList⟩]]⟩,
        ⟨"➡️ 下一页".toList, some "p2".toList⟩) ∧
    qualMsg ⟨3, false, false, false, none, [[⟨"➡️ 下一页".toList, some "p2".toList⟩]]⟩ = true :=
  ⟨by decide,
   ((find_next_page_button_spec
      [⟨3, false, false, false, none, [[⟨"➡️ 下一页".toList, some "p2".toList⟩]]⟩] 1).1
      ⟨3, false, false, false, none, [[⟨"➡️ 下一页".toList, some "p2".toList⟩]]⟩
      ⟨"➡️ 下一页".toList, some "p2".toList⟩ (by decide)).1⟩

/-! ### Dedup invariant and pagination bound (C1, C2) -/

theorem pageIds_nodup {fetched : List Msg} (hn : (fetched.map Msg.id).Nodup)
    (p : Msg → Bool) : ((botSelect (fetched.filter p)).map Msg.id).Nodup := by
  have hn1 : ((fetched.filter p).map Msg.id).Nodup :=
    ((List.filter_sublist fetched).map Msg.id).nodup hn
  have hn2 : (((fetched.filter p).filter (fun m => !m.out && hasMedia m)).map Msg.id).Nodup :=
    ((List.filter_sublist _).map Msg.id).nodup hn1
  unfold botSelect
  exact (((sortLe_perm (fun a b => decide (a.id ≤ b.id)) _).map Msg.id).symm).nodup hn2

theorem pageIds_mem {fetched : List Msg} {p : Msg → Bool} {a : Nat}
    (ha : a ∈ (botSelect (fetched.filter p)).map Msg.id) :
    ∃ mm ∈ fetched.filter p, mm.id = a ∧ hasMedia mm = true := by
  obtain ⟨mm, hmm, hid⟩ := List.mem_map.mp ha
  obtain ⟨hmem, _, hmedia⟩ := botSelect_mem hmm
  exact ⟨mm, hmem, hid, hmedia⟩

theorem botIter_inv (env : BotEnv) (base : FsPath)
    (henv : ∀ i, ((env.fetch i).map Msg.id).Nodup) :
    ∀ (fuel iter cp : Nat) (st : BotState),
      st.attempts.Nodup → (∀ a ∈ st.attempts, a ∈ st.dedup) →
      (botIter env base fuel iter cp st).final.attempts.Nodup ∧
      ∀ a ∈ (botIter env base fuel iter cp st).final.attempts,
        a ∈ (botIter env base fuel iter cp st).final.dedup := by
  intro fuel
  induction fuel with
  | zero => intro iter cp st h1 h2; exact ⟨h1, h2⟩
  | succ n ih =>
    intro iter cp st h1 h2
    rw [botIter]
    by_cases hne : ((env.fetch iter).filter
        (fun m => decide (watermarkOf env < m.id) && decide (m.id ∉ st.dedup))).isEmpty
    · simp only [hne, if_true]
      exact ⟨h1, h2⟩
    · simp only [hne, if_false, Bool.false_eq_true]
      have hattempted := (download_media_messages_spec env.dl
        ((env.fetch iter).filter
          (fun m => decide (watermarkOf env < m.id) && decide (m.id ∉ st.dedup)))
        base st.total).1
      have hpn : ((botSelect ((env.fetch iter).filter
          (fun m => decide (watermarkOf env < m.id) && decide (m.id ∉ st.dedup)))).map
            Msg.id).Nodup := pageIds_nodup (henv iter) _
      have hdisj : ∀ a ∈ st.attempts,
          a ∉ ((botSelect ((env.fetch iter).filter
            (fun m => decide (watermarkOf env < m.id) && decide (m.id ∉ st.dedup)))).map
              Msg.id) := by
        intro a ha hmem
        obtain ⟨mm, hmm, hid, _⟩ := pageIds_mem hmem
        have hfil := List.of_mem_filter hmm
        have hnotded := (Bool.and_eq_true_iff.mp hfil).2
        rw [hid] at hnotded
        exact (of_decide_eq_true hnotded) (h2 a ha)
      have h1' : (st.attempts ++ (download_media_messages env.dl
          ((env.fetch iter).filter
            (fun m => decide (watermarkOf env < m.id) && decide (m.id ∉ st.dedup)))
          base st.total).items.attempted).Nodup := by
        rw [hattempted]
        exact List.Nodup.append h1 hpn hdisj
      have h2' : ∀ a ∈ st.attempts ++ (download_media_messages env.dl
          ((env.fetch iter).filter
            (fun m => decide (watermarkOf env < m.id) && decide (m.id ∉ st.dedup)))
          base st.total).items.attempted,
          a ∈ st.dedup ++ (((env.fetch iter).filter
            (fun m => decide (watermarkOf env < m.id) && decide (m.id ∉ st.dedup))).filter
              hasMedia).map Msg.id := by
        intro a ha
        rcases List.mem_append.mp ha with ha | ha
        · exact List.mem_append_left _ (h2 a ha)
        · rw [hattempted] at ha
          obtain ⟨mm, hmm, hid, hmedia⟩ := pageIds_mem ha
          refine List.mem_append_right _ ?_
          rw [← hid]
          exact List.mem_map_of_mem Msg.id (List.mem_filter.mpr ⟨hmm, hmedia⟩)
      cases hf : find_next_page_button ((env.fetch iter).filter
          (fun m => decide (watermarkOf env < m.id) && decide (m.id ∉ st.dedup))) cp with
      | none => exact ⟨h1', h2'⟩
      | some x => exact ih (iter + 1) (cp + 1) _ h1' h2'

/-- C1: across a whole bot-flow run, every new message carrying media is added
to the dedup set before its download is attempted and dedup-set members are
filtered out of later page fetches, so — provided each fetch returns messages
with pairwise-distinct ids — no message id is ever download-attempted twice,
even when a later page re-lists it or its download fails. -/
theorem bot_dedup_attempts_nodup :
    ∀ (env : BotEnv) (base : FsPath) (maxPages : Nat),
      (∀ i, ((env.fetch i).map Msg.id).Nodup) →
      (interact_with_bot env base maxPages).final.attempts.Nodup ∧
      ∀ a ∈ (interact_with_bot env base maxPages).final.attempts,
        a ∈ (interact_with_bot env base maxPages).final.dedup := by
  intro env base maxPages henv
  exact botIter_inv env base henv maxPages 0 1 ⟨0, [], [], 0⟩ List.nodup_nil (by simp)

/-- Environment of the C1 witness: one page with a single photo message, no
further messages. -/
def botEnvW : BotEnv :=
  ⟨⟨fun _ => true, fun _ => true, 0⟩, [],
   fun i => if i = 0 then [⟨5, false, true, false, none, []⟩] else []⟩

/-- C1 witness: the concrete run attempts exactly message id 5 once. -/
theorem bot_dedup_attempts_nodup_witness :
    (∀ i, ((botEnvW.fetch i).map Msg.id).Nodup) ∧
    (interact_with_bot botEnvW ["r".toList] 3).final.attempts = [5] ∧
    (interact_with_bot botEnvW ["r".toList] 3).final.attempts.Nodup := by
  have hfetch : ∀ i, ((botEnvW.fetch i).map Msg.id).Nodup := by
    intro i
    cases i with
    | zero => decide
    | succ k => simp [botEnvW]
  exact ⟨hfetch, by decide,
    (bot_dedup_attempts_nodup botEnvW ["r".toList] 3 hfetch).1⟩

theorem botIter_pages_le (env : BotEnv) (base : FsPath) :
    ∀ (fuel iter cp : Nat) (st : BotState),
      (botIter env base fuel iter cp st).final.pages ≤ st.pages + fuel := by
  intro fuel
  induction fuel with
  | zero => intro iter cp st; exact Nat.le_refl _
  | succ n ih =>
    intro iter cp st
    rw [botIter]
    by_cases hne : ((env.fetch iter).filter
        (fun m => decide (watermarkOf env < m.id) && decide (m.id ∉ st.dedup))).isEmpty
    · simp only [hne, if_true]
      exact Nat.le_add_right _ _
    · simp only [hne, if_false, Bool.false_eq_true]
      cases hf : find_next_page_button ((env.fetch iter).filter
          (fun m => decide (watermarkOf env < m.id) && decide (m.id ∉ st.dedup))) cp with
      | none =>
        show st.pages + 1 ≤ st.pages + (n + 1)
        omega
      | some x =>
        refine Nat.le_trans (ih (iter + 1) (cp + 1) _) ?_
        show st.pages + 1 + n ≤ st.pages + (n + 1)
        omega

/-- C2: for every page limit `maxPages > 0` the bot pagination loop enters at
most `maxPages` iterations and halts, whatever the remote source returns and
however many next-page buttons it presents; its only exits are the page limit,
the absence of new messages, or the absence of a qualifying next-page
button. -/
theorem bot_pagination_bounded :
    ∀ (env : BotEnv) (base : FsPath) (maxPages : Nat), 0 < maxPages →
      (interact_with_bot env base maxPages).final.pages ≤ maxPages ∧
      ((interact_with_bot env base maxPages).exit = BotExit.pageLimit ∨
       (interact_with_bot env base maxPages).exit = BotExit.noNewMessages ∨
       (interact_with_bot env base maxPages).exit = BotExit.noButton) := by
  intro env base maxPages hpos
  refine ⟨?_, ?_⟩
  · have h := botIter_pages_le env base maxPages 0 1 ⟨0, [], [], 0⟩
    simpa using h
  · cases h : (interact_with_bot env base maxPages).exit with
    | pageLimit => exact Or.inl rfl
    | noNewMessages => exact Or.inr (Or.inl rfl)
    | noButton => exact Or.inr (Or.inr rfl)

/-- Environment of the C2 witness: every fetch returns a fresh photo message
carrying a next-page arrow button, so the remote never stops presenting
pagination controls. -/
def botEnvW2 : BotEnv :=
  ⟨⟨fun _ => true, fun _ => true, 0⟩, [],
   fun i => [⟨i + 1, false, true, false, none, [[⟨"▶️".toList, some "nx".toList⟩]]⟩]⟩

/-- C2 witness: with a remote that always offers a next page, the run still
stops within the page limit. -/
theorem bot_pagination_bounded_witness :
    0 < 2 ∧ (interact_with_bot botEnvW2 ["r".toList] 2).final.pages ≤ 2 ∧
    (interact_with_bot botEnvW2 ["r".toList] 2).exit = BotExit.pageLimit :=
  ⟨by decide, (bot_pagination_bounded botEnvW2 ["r".toList] 2 (by decide)).1, by decide⟩
